import Mathlib

/-!
A shallow embedding of the abstract-filesystem-state oracle of
src/common/abstract_fs.cpp (the Metis repository).

External hash libraries (xxHash, OpenSSL MD5, zlib crc32) are modelled by an
environment record: the engine state is tracked as the list of update chunks
fed so far, the crc32 register is tracked explicitly as a 32-bit value, and
the success of an xxHash/MD5 update call is an environment function.  All
filesystem input (stat results, directory-visit order, read contents,
readlink results) is passed in explicitly.  Every definition follows the
corresponding C function; line references are given per definition.
-/

/-- st_mode file-type test, as the POSIX S_ISREG macro: the type nibble of
the mode equals the regular-file code 0x8000. -/
def S_ISREG (m : Nat) : Bool := m &&& 0xF000 == 0x8000

/-- The hash-relevant attribute block of one entry (struct abstract_fs
attrs fields used at abstract_fs.cpp:201-215): mode, size, nlink, uid, gid.
It is hashed as one fixed-layout block. -/
structure Attrs where
  mode : Nat
  size : Nat
  nlink : Nat
  uid : Nat
  gid : Nat
deriving DecidableEq, Repr

/-- Diagnostic-only metadata (the _attrs member set at
abstract_fs.cpp:216-217), excluded from the hash. -/
structure ExtraAttrs where
  blksize : Nat
  blocks : Nat
deriving DecidableEq, Repr

/-- One collected entry, mirroring the AbstractFile record filled in by
nftw_handler (abstract_fs.cpp:182-218). -/
structure AbstractFile where
  fullpath : String
  abstract_path : String
  target_relpath : String
  attrs : Attrs
  extra_attrs : ExtraAttrs
deriving DecidableEq, Repr

/-- exclusion_list (abstract_fs.cpp:53-58). -/
def exclusion_list : List String := ["/lost+found", "/.nilfs", "/.mcfs_dummy", "/build"]

/-- is_excluded (abstract_fs.cpp:61-63): exact membership in exclusion_list,
or the C++ test path.rfind("./nfs", 0) == 0, which holds exactly when the
string "./nfs" occurs at position 0 of the path. -/
def is_excluded (path : String) : Bool :=
  exclusion_list.contains path || "./nfs".toList.isPrefixOf path.toList

/-- Substring occurrence test, as C strstr(hay, needle) != NULL. -/
def hasSubstring (hay needle : List Char) : Bool :=
  if needle.isPrefixOf hay then true
  else
    match hay with
    | [] => false
    | _ :: t => hasSubstring t needle

/-- nlink_fs (abstract_fs.cpp:49). -/
def nlink_fs : List String := ["ext4", "ext2", "jffs2"]

/-- fs_with_extra_nlink (abstract_fs.cpp:161-169): strstr substring search of
each nlink_fs entry inside the full path string. -/
def fs_with_extra_nlink (fpath : String) : Bool :=
  nlink_fs.any (fun s => hasSubstring fpath.toList s.toList)

/-- get_abstract_path (abstract_fs.cpp:153-159): drop basepath_len leading
characters; if the remainder is empty the entry is the root, printed "/". -/
def get_abstract_path (basepath_len : Nat) (fullpath : String) : String :=
  let res := fullpath.drop basepath_len
  if res = "" then "/" else res

/-- One update fed to the selected hash engine: a C string (its bytes), the
raw attribute block, or one buffer of file content. -/
inductive Chunk where
  | str (s : String)
  | attrs (a : Attrs)
  | bytes (b : List Nat)
deriving DecidableEq, Repr

/-- The four values of hash_option (absfs_t; dispatch switches at
abstract_fs.cpp:93, 300, 437, 493). -/
inductive HashOption where
  | xxh128
  | xxh3
  | md5
  | crc32
deriving DecidableEq, Repr

/-- Model of the external hash libraries: updOk tells whether an
xxHash/MD5 update call succeeds on a given chunk; crc is the zlib crc32
folding function (its result is kept modulo 2 to the 32 as the uLong
register holds a 32-bit CRC). -/
structure EngineEnv where
  updOk : Chunk → Bool
  crc : Nat → Chunk → Nat

/-- The outcome script of open() and the read() loop for one file: openErr
is the errno when open fails; chunks are the successive positive reads;
readErr is the errno when the final read fails instead of returning 0. -/
structure ReadScript where
  openErr : Option Nat
  chunks : List (List Nat)
  readErr : Option Nat

/-- Conversion of a 32-bit unsigned value to a C int, as the cast
(int)(absfs->crc32_state = crc32(...)) at abstract_fs.cpp:111. -/
def int_of_uint32 (s : Nat) : Int :=
  if s < 2 ^ 31 then (s : Int) else (s : Int) - 2 ^ 32

/-- The while loop of hash_file_content (abstract_fs.cpp:92-141).  Returns
(ret, chunks fed to the engine, final crc register).  In the three
xxHash/MD5 branches ret is 1 on update success and 0 on update failure; in
the crc32 branch ret is the int cast of the new register, so ret == 0
exactly when the running CRC is zero; ret == 0 is then turned into the
+1 error return.  After the loop a negative final read yields -errno. -/
def hfcLoop (o : HashOption) (env : EngineEnv) : Nat → List (List Nat) → Option Nat → Int × List Chunk × Nat
  | st, [], none => (0, [], st)
  | st, [], some e => (-(e : Int), [], st)
  | st, b :: rest, fin =>
    match o with
    | HashOption.xxh128 =>
      if env.updOk (Chunk.bytes b) then
        let r := hfcLoop HashOption.xxh128 env st rest fin
        (r.1, Chunk.bytes b :: r.2.1, r.2.2)
      else (1, [], st)
    | HashOption.xxh3 =>
      if env.updOk (Chunk.bytes b) then
        let r := hfcLoop HashOption.xxh3 env st rest fin
        (r.1, Chunk.bytes b :: r.2.1, r.2.2)
      else (1, [], st)
    | HashOption.md5 =>
      if env.updOk (Chunk.bytes b) then
        let r := hfcLoop HashOption.md5 env st rest fin
        (r.1, Chunk.bytes b :: r.2.1, r.2.2)
      else (1, [], st)
    | HashOption.crc32 =>
      let s := env.crc st (Chunk.bytes b) % 2 ^ 32
      if int_of_uint32 s = 0 then (1, [Chunk.bytes b], s)
      else
        let r := hfcLoop HashOption.crc32 env s rest fin
        (r.1, Chunk.bytes b :: r.2.1, r.2.2)

/-- hash_file_content (abstract_fs.cpp:80-146): a failed open returns
-errno at once; otherwise the read/update loop runs.  Result is
(ret, chunks fed, final crc register). -/
def hash_file_content (o : HashOption) (env : EngineEnv) (rs : ReadScript) (st : Nat) :
    Int × List Chunk × Nat :=
  match rs.openErr with
  | some e => (-(e : Int), [], st)
  | none => hfcLoop o env st rs.chunks rs.readErr

/-- The attribute block that FeedHasher actually feeds: size is zeroed
first for non-regular entries (abstract_fs.cpp:291-298). -/
def hashedAttrs (a : Attrs) : Attrs :=
  if S_ISREG a.mode then a else { a with size := 0 }

/-- The switch of AbstractFile::FeedHasher (abstract_fs.cpp:300-332): every
branch updates the engine with the abstract path bytes, then the symlink
target bytes, then the attribute block; only the crc32 branch moves the
crc register. -/
def feedMeta (o : HashOption) (env : EngineEnv) (p t : String) (a : Attrs) (st : Nat) :
    List Chunk × Nat :=
  match o with
  | HashOption.xxh128 => ([Chunk.str p, Chunk.str t, Chunk.attrs a], st)
  | HashOption.xxh3 => ([Chunk.str p, Chunk.str t, Chunk.attrs a], st)
  | HashOption.md5 => ([Chunk.str p, Chunk.str t, Chunk.attrs a], st)
  | HashOption.crc32 =>
    let s1 := env.crc st (Chunk.str p) % 2 ^ 32
    let s2 := env.crc s1 (Chunk.str t) % 2 ^ 32
    let s3 := env.crc s2 (Chunk.attrs a) % 2 ^ 32
    ([Chunk.str p, Chunk.str t, Chunk.attrs a], s3)

/-- AbstractFile::FeedHasher (abstract_fs.cpp:279-339).  The true size is
saved, size is zeroed for non-regular entries, the three metadata updates
run, content is hashed for regular files only (the return status of
hash_file_content is discarded, exactly as in the source), and the saved
size is assigned back.  Result: (file record after the call, chunks fed,
final crc register). -/
def AbstractFile.FeedHasher (o : HashOption) (env : EngineEnv) (f : AbstractFile)
    (rs : ReadScript) (st : Nat) : AbstractFile × List Chunk × Nat :=
  let fsize := f.attrs.size
  let a1 := hashedAttrs f.attrs
  let meta := feedMeta o env f.abstract_path f.target_relpath a1 st
  let cont :=
    if S_ISREG a1.mode then
      let r := hash_file_content o env rs meta.2
      (r.2.1, r.2.2)
    else ([], meta.2)
  ({ f with attrs := { a1 with size := fsize } }, meta.1 ++ cont.1, cont.2)

/-- Lexicographic comparison of character lists by character value, the
order std::string operator< computes on the path strings. -/
def lexLe : List Char → List Char → Bool
  | [], _ => true
  | _ :: _, [] => false
  | a :: as, b :: bs =>
    if a.toNat < b.toNat then true
    else if b.toNat < a.toNat then false
    else lexLe as bs

/-- The comparator of the std::sort call at abstract_fs.cpp:254-257,
as a non-strict order (the sorted result of std::sort with the strict
comparator is exactly a list sorted under this relation). -/
def absPathLe (a b : AbstractFile) : Prop :=
  lexLe a.abstract_path.toList b.abstract_path.toList = true

instance : DecidableRel absPathLe := fun a b =>
  inferInstanceAs (Decidable (lexLe a.abstract_path.toList b.abstract_path.toList = true))

/-- The sort of the collected entry list (abstract_fs.cpp:252-257). -/
def sortFiles (l : List AbstractFile) : List AbstractFile :=
  l.insertionSort absPathLe

/-- The hashing loop of walk (abstract_fs.cpp:260-274): fold FeedHasher
over the sorted entries, threading the crc register, collecting all chunks
fed.  The per-file ReadScript is fetched by full path. -/
def hashFiles (o : HashOption) (env : EngineEnv) (io : String → ReadScript) :
    Nat → List AbstractFile → List Chunk × Nat
  | st, [] => ([], st)
  | st, f :: rest =>
    let r := AbstractFile.FeedHasher o env f (io f.fullpath) st
    let r2 := hashFiles o env io r.2.2 rest
    (r.2.1 ++ r2.1, r2.2)

/-- The observable outcome of the nftw(3) call in do_walk
(abstract_fs.cpp:231): the value nftw returned, the errno it left, and the
contents of the walker_files vector filled by the handler. -/
structure NftwOut where
  res : Int
  errno : Nat
  files : List AbstractFile
deriving DecidableEq, Repr

/-- do_walk (abstract_fs.cpp:222-239): only a negative nftw result is an
error, reported as -errno; any non-negative result, including the positive
FTW_STOP value, falls through to return 0. -/
def do_walk (n : NftwOut) : Int × List AbstractFile :=
  if n.res < 0 then (-(n.errno : Int), n.files) else (0, n.files)

/-- walk (abstract_fs.cpp:241-277): a negative do_walk status is returned
at once and nothing is hashed; otherwise the list is sorted and hashed
(the crc register starts at 0) and 0 is returned.  Result:
(status, chunks fed to the engine). -/
def walk (o : HashOption) (env : EngineEnv) (io : String → ReadScript) (n : NftwOut) :
    Int × List Chunk :=
  let r := do_walk n
  if r.1 < 0 then (r.1, [])
  else (0, (hashFiles o env io 0 (sortFiles r.2)).1)

/-- scan_abstract_fs (abstract_fs.cpp:489-525): calls walk, then — for every
one of the four hash options, whatever the walk status was — finalizes the
digest into absfs->state.  The populated state is modelled as some applied
to the fed chunk stream (a deterministic digest is a function of that
stream); none would model a state buffer that was never written. -/
def scan_abstract_fs (o : HashOption) (env : EngineEnv) (io : String → ReadScript)
    (n : NftwOut) : Int × Option (List Chunk) :=
  let r := walk o env io n
  match o with
  | HashOption.xxh128 => (r.1, some r.2)
  | HashOption.xxh3 => (r.1, some r.2)
  | HashOption.md5 => (r.1, some r.2)
  | HashOption.crc32 => (r.1, some r.2)

/-- The nftw typeflag values relevant to the handler. -/
inductive Typeflag where
  | F
  | D
  | SL
  | other
deriving DecidableEq, Repr

/-- The stat buffer fields read by nftw_handler (abstract_fs.cpp:201-217). -/
structure StatInfo where
  mode : Nat
  size : Nat
  nlink : Nat
  uid : Nat
  gid : Nat
  blksize : Nat
  blocks : Nat
deriving DecidableEq, Repr

/-- One invocation of the nftw callback: path, stat buffer, typeflag and
depth level. -/
structure Visit where
  fpath : String
  finfo : StatInfo
  typeflag : Typeflag
  level : Nat
deriving DecidableEq, Repr

/-- MAX_DEPTH (abstract_fs.cpp:37). -/
def MAX_DEPTH : Nat := 2

/-- What the nftw callback answers: exit the process on a depth violation
(abstract_fs.cpp:174-177), FTW_SKIP_SUBTREE on exclusion, FTW_STOP on a
readlink error, or FTW_CONTINUE after pushing the collected entry. -/
inductive HandlerAction where
  | exitDepth
  | skipSubtree
  | stop
  | continueWith (f : AbstractFile)
deriving DecidableEq, Repr

/-- nftw_handler (abstract_fs.cpp:171-220).  bl is basepath_len; rl models
readlink, giving the target string or none on error.  For a symlink the
target is rebased by dropping basepath_len characters
(abstract_fs.cpp:196); for other entries target_relpath stays the empty
string.  The nlink stored is reduced by one exactly when
fs_with_extra_nlink holds of the full path and the abstract path is the
root (abstract_fs.cpp:208-213). -/
def nftw_handler (bl : Nat) (rl : String → Option String) (v : Visit) : HandlerAction :=
  if v.level > MAX_DEPTH then HandlerAction.exitDepth
  else
    let abspath := get_abstract_path bl v.fpath
    if is_excluded abspath then HandlerAction.skipSubtree
    else
      let tgt : Option String :=
        if v.typeflag = Typeflag.SL then
          match rl v.fpath with
          | none => none
          | some t => some (t.drop bl)
        else some ""
      match tgt with
      | none => HandlerAction.stop
      | some target_relpath =>
        let nl :=
          if fs_with_extra_nlink v.fpath && (abspath == "/") then v.finfo.nlink - 1
          else v.finfo.nlink
        HandlerAction.continueWith
          { fullpath := v.fpath
            abstract_path := abspath
            target_relpath := target_relpath
            attrs :=
              { mode := v.finfo.mode, size := v.finfo.size, nlink := nl,
                uid := v.finfo.uid, gid := v.finfo.gid }
            extra_attrs := { blksize := v.finfo.blksize, blocks := v.finfo.blocks } }

/-- The FTW_STOP action value of the glibc ftw.h enumeration; with
FTW_ACTIONRETVAL set, nftw returns this (positive) value when the callback
returns it. -/
def FTW_STOP : Int := 1

/-- Modelled from the documented glibc nftw contract (nftw is the libc
collaborator of do_walk, not repository code): the callback is invoked on
each visited entry in some traversal order; FTW_CONTINUE appends the entry
and goes on, FTW_SKIP_SUBTREE goes on without appending (its subtree does
not appear among the remaining visits), FTW_STOP makes nftw return the
positive FTW_STOP value at once, a depth violation makes the handler exit
the whole process (modelled as none). -/
def runNftw (bl : Nat) (rl : String → Option String) :
    List Visit → List AbstractFile → Option NftwOut
  | [], acc => some { res := 0, errno := 0, files := acc }
  | v :: rest, acc =>
    match nftw_handler bl rl v with
    | HandlerAction.exitDepth => none
    | HandlerAction.skipSubtree => runNftw bl rl rest acc
    | HandlerAction.stop => some { res := FTW_STOP, errno := 0, files := acc }
    | HandlerAction.continueWith f => runNftw bl rl rest (acc ++ [f])

/-- One lowercase hexadecimal digit, as printf %x renders the values 0-15. -/
def hexDigit (n : Nat) : Char :=
  if n < 10 then Char.ofNat (48 + n) else Char.ofNat (87 + n)

/-- printf "%02x" of a byte value (two lowercase hexadecimal digits). -/
def hexByte (n : Nat) : String :=
  String.mk [hexDigit (n / 16 % 16), hexDigit (n % 16)]

/-- print_abstract_fs_state (abstract_fs.cpp:536-539): sixteen iterations,
each printing hash[i] & 0xff with %02x, whatever the hash option was.  The
state buffer is the 16-byte absfs_state_t array, given here as its list of
byte values. -/
def print_abstract_fs_state (hash : List Nat) : String :=
  String.join ((List.range 16).map (fun i => hexByte ((hash.getD i 0) &&& 0xff)))

/-- The running crc32 register after feeding a list of content buffers,
each reduced modulo 2 to the 32 as the 32-bit CRC register. -/
def crcAfter (env : EngineEnv) : Nat → List (List Nat) → Nat
  | st, [] => st
  | st, b :: rest => crcAfter env (env.crc st (Chunk.bytes b) % 2 ^ 32) rest

/-- Holds when no intermediate crc32 register value along a list of content
buffers is zero (the condition under which the crc32 read loop of
hash_file_content never mistakes the running CRC for a failure). -/
def noZeroRun (env : EngineEnv) : Nat → List (List Nat) → Bool
  | _, [] => true
  | st, b :: rest =>
    let s := env.crc st (Chunk.bytes b) % 2 ^ 32
    (s != 0) && noZeroRun env s rest

/-- Two entries that agree on every field except that the stat-reported
size may differ when the entry is not a regular file (the claim C6 notion
of two trees identical up to OS-reported directory sizes). -/
def SameExceptDirSize (f g : AbstractFile) : Prop :=
  f.fullpath = g.fullpath ∧ f.abstract_path = g.abstract_path ∧
  f.target_relpath = g.target_relpath ∧ f.attrs.mode = g.attrs.mode ∧
  f.attrs.nlink = g.attrs.nlink ∧ f.attrs.uid = g.attrs.uid ∧
  f.attrs.gid = g.attrs.gid ∧ f.extra_attrs = g.extra_attrs ∧
  (S_ISREG f.attrs.mode = true → f.attrs.size = g.attrs.size)

/-- The sort comparator strengthened with path distinctness or record
equality; antisymmetric, which the bare comparator is not. -/
def absPathLeStrict (a b : AbstractFile) : Prop :=
  absPathLe a b ∧ (a = b ∨ a.abstract_path ≠ b.abstract_path)

/-! Concrete fixtures used by the closed theorems and witnesses below. -/

/-- A hash-library environment in which every update call succeeds and the
crc folding function is some definite function. -/
def env0 : EngineEnv := { updOk := fun _ => true, crc := fun st _ => st + 1 }

/-- A hash-library environment in which every xxHash/MD5 update call
fails. -/
def envU : EngineEnv := { updOk := fun _ => false, crc := fun st _ => st + 1 }

/-- A crc environment whose folding function reaches the zero register on
every buffer. -/
def envC : EngineEnv := { updOk := fun _ => true, crc := fun _ _ => 0 }

/-- File content scripts: every file opens fine and is empty. -/
def io0 : String → ReadScript := fun _ => { openErr := none, chunks := [], readErr := none }

/-- File content scripts: every file opens fine and yields one buffer. -/
def ioC : String → ReadScript := fun _ => { openErr := none, chunks := [[104, 105]], readErr := none }

/-- A readlink model that fails on every path. -/
def rl0 : String → Option String := fun _ => none

/-- stat buffer of a directory (mode 040755). -/
def dirStat : StatInfo :=
  { mode := 16877, size := 4096, nlink := 3, uid := 0, gid := 0, blksize := 4096, blocks := 8 }

/-- stat buffer of a symlink (mode 0120777). -/
def slStat : StatInfo :=
  { mode := 41471, size := 1, nlink := 1, uid := 0, gid := 0, blksize := 4096, blocks := 8 }

/-- stat buffer of a small regular file (mode 0100644). -/
def regStat : StatInfo :=
  { mode := 33188, size := 2, nlink := 1, uid := 0, gid := 0, blksize := 4096, blocks := 8 }

/-- The root entry collected for basepath /mnt/fs. -/
def rootFile : AbstractFile :=
  { fullpath := "/mnt/fs", abstract_path := "/", target_relpath := "",
    attrs := { mode := 16877, size := 4096, nlink := 3, uid := 0, gid := 0 },
    extra_attrs := { blksize := 4096, blocks := 8 } }

/-- The same root entry with a different OS-reported directory size. -/
def rootFileSz : AbstractFile :=
  { fullpath := "/mnt/fs", abstract_path := "/", target_relpath := "",
    attrs := { mode := 16877, size := 0, nlink := 3, uid := 0, gid := 0 },
    extra_attrs := { blksize := 4096, blocks := 8 } }

/-- A regular file entry /a under basepath /mnt/fs. -/
def regFile : AbstractFile :=
  { fullpath := "/mnt/fs/a", abstract_path := "/a", target_relpath := "",
    attrs := { mode := 33188, size := 2, nlink := 1, uid := 0, gid := 0 },
    extra_attrs := { blksize := 4096, blocks := 8 } }

/-- A regular file entry /b under basepath /mnt/fs. -/
def regFileB : AbstractFile :=
  { fullpath := "/mnt/fs/b", abstract_path := "/b", target_relpath := "",
    attrs := { mode := 33188, size := 2, nlink := 1, uid := 0, gid := 0 },
    extra_attrs := { blksize := 4096, blocks := 8 } }

/-- An NFS temporary file entry /.nfs1234 under basepath /mnt/fs, as
nftw_handler collects it. -/
def nfsFile : AbstractFile :=
  { fullpath := "/mnt/fs/.nfs1234", abstract_path := "/.nfs1234", target_relpath := "",
    attrs := { mode := 33188, size := 2, nlink := 1, uid := 0, gid := 0 },
    extra_attrs := { blksize := 4096, blocks := 8 } }

/-- The 16-byte state buffer left by a crc32-mode scan: the four digest
bytes copied by memcpy, the other twelve bytes still zero from the memset
in init_abstract_fs. -/
def crcModeState : List Nat := [222, 173, 190, 239, 0, 0, 0, 0, 0, 0, 0, 0, 0, 0, 0, 0]

/-! Order lemmas for the path comparator. -/

theorem lexLe_total : ∀ x y : List Char, lexLe x y = true ∨ lexLe y x = true
  | [], _ => Or.inl rfl
  | _ :: _, [] => Or.inr rfl
  | a :: as, b :: bs => by
    rcases Nat.lt_trichotomy a.toNat b.toNat with h | h | h
    · left
      simp [lexLe, h]
    · have h1 : ¬ a.toNat < b.toNat := by omega
      have h2 : ¬ b.toNat < a.toNat := by omega
      rcases lexLe_total as bs with h3 | h3
      · left
        simp [lexLe, h1, h2, h3]
      · right
        simp [lexLe, h1, h2, h3]
    · right
      simp [lexLe, h]

theorem lexLe_trans :
    ∀ x y z : List Char, lexLe x y = true → lexLe y z = true → lexLe x z = true
  | [], _, _, _, _ => rfl
  | _ :: _, [], _, hxy, _ => by simp [lexLe] at hxy
  | _ :: _, _ :: _, [], _, hyz => by simp [lexLe] at hyz
  | a :: as, b :: bs, c :: cs, hxy, hyz => by
    simp only [lexLe] at hxy hyz ⊢
    by_cases hab : a.toNat < b.toNat
    · by_cases hbc : b.toNat < c.toNat
      · rw [if_pos (by omega : a.toNat < c.toNat)]
      · by_cases hcb : c.toNat < b.toNat
        · rw [if_neg hbc, if_pos hcb] at hyz
          exact Bool.noConfusion hyz
        · rw [if_pos (by omega : a.toNat < c.toNat)]
    · by_cases hba : b.toNat < a.toNat
      · rw [if_neg hab, if_pos hba] at hxy
        exact Bool.noConfusion hxy
      · rw [if_neg hab, if_neg hba] at hxy
        by_cases hbc : b.toNat < c.toNat
        · rw [if_pos (by omega : a.toNat < c.toNat)]
        · by_cases hcb : c.toNat < b.toNat
          · rw [if_neg hbc, if_pos hcb] at hyz
            exact Bool.noConfusion hyz
          · rw [if_neg hbc, if_neg hcb] at hyz
            rw [if_neg (by omega : ¬ a.toNat < c.toNat),
              if_neg (by omega : ¬ c.toNat < a.toNat)]
            exact lexLe_trans as bs cs hxy hyz

theorem lexLe_antisymm :
    ∀ x y : List Char, lexLe x y = true → lexLe y x = true → x = y
  | [], [], _, _ => rfl
  | _ :: _, [], hxy, _ => by simp [lexLe] at hxy
  | [], _ :: _, _, hyx => by simp [lexLe] at hyx
  | a :: as, b :: bs, hxy, hyx => by
    simp only [lexLe] at hxy hyx
    by_cases hab : a.toNat < b.toNat
    · rw [if_neg (by omega : ¬ b.toNat < a.toNat), if_pos hab] at hyx
      exact Bool.noConfusion hyx
    · by_cases hba : b.toNat < a.toNat
      · rw [if_neg hab, if_pos hba] at hxy
        exact Bool.noConfusion hxy
      · rw [if_neg hab, if_neg hba] at hxy
        rw [if_neg hba, if_neg hab] at hyx
        have hc : a = b :=
          Char.ofNat_toNat a ▸ Char.ofNat_toNat b ▸ congrArg Char.ofNat (by omega)
        rw [hc, lexLe_antisymm as bs hxy hyx]

/-- Two entries related by the comparator in both directions have equal
abstract paths. -/
theorem absPathLe_antisymm_path {a b : AbstractFile}
    (h1 : absPathLe a b) (h2 : absPathLe b a) : a.abstract_path = b.abstract_path :=
  String.toList_inj.mp (lexLe_antisymm _ _ h1 h2)

instance : IsAntisymm AbstractFile absPathLeStrict :=
  ⟨fun a b h1 h2 => by
    rcases h1.2 with he | hne
    · exact he
    · exact absurd (absPathLe_antisymm_path h1.1 h2.1) hne⟩

/-- A comparator-sorted list whose abstract paths are distinct is sorted
under the strengthened, antisymmetric comparator. -/
theorem sorted_strict_of_nodup {l : List AbstractFile}
    (hs : List.Sorted absPathLe l)
    (hn : (l.map AbstractFile.abstract_path).Nodup) :
    List.Sorted absPathLeStrict l := by
  have hp : l.Pairwise (fun a b => a.abstract_path ≠ b.abstract_path) :=
    List.pairwise_map.mp hn
  exact (hs.and hp).imp (fun h => ⟨h.1, Or.inr h.2⟩)

/-- The sorted entry list is the same whatever order the entries were
collected in, provided the abstract paths are pairwise distinct (as they
are for the entries of one directory tree). -/
theorem sortFiles_eq_of_perm {l₁ l₂ : List AbstractFile} (hp : l₁.Perm l₂)
    (hn : (l₁.map AbstractFile.abstract_path).Nodup) :
    sortFiles l₁ = sortFiles l₂ := by
  haveI : IsTotal AbstractFile absPathLe :=
    ⟨fun a b => lexLe_total a.abstract_path.toList b.abstract_path.toList⟩
  haveI : IsTrans AbstractFile absPathLe :=
    ⟨fun _ _ _ h1 h2 => lexLe_trans _ _ _ h1 h2⟩
  have hn2 : (l₂.map AbstractFile.abstract_path).Nodup :=
    (hp.map AbstractFile.abstract_path).nodup_iff.mp hn
  have hperm : (sortFiles l₁).Perm (sortFiles l₂) :=
    (List.perm_insertionSort absPathLe l₁).trans
      (hp.trans (List.perm_insertionSort absPathLe l₂).symm)
  have hn1s : ((sortFiles l₁).map AbstractFile.abstract_path).Nodup :=
    (((List.perm_insertionSort absPathLe l₁).map AbstractFile.abstract_path).nodup_iff).mpr hn
  have hn2s : ((sortFiles l₂).map AbstractFile.abstract_path).Nodup :=
    (((List.perm_insertionSort absPathLe l₂).map AbstractFile.abstract_path).nodup_iff).mpr hn2
  exact List.eq_of_perm_of_sorted hperm
    (sorted_strict_of_nodup (List.sorted_insertionSort absPathLe l₁) hn1s)
    (sorted_strict_of_nodup (List.sorted_insertionSort absPathLe l₂) hn2s)

/-- C1: for a fixed tree and any of the four hash algorithms, walking twice
without mutation yields identical signatures regardless of the order the
directory listing returned the entries: the collected entry lists are
permutations of each other (with the distinct abstract paths of a real
tree), and after the sort by abstract_path the whole scan result — status
and finalized signature state — is identical. -/
theorem scan_signature_listing_order_independent (o : HashOption) (env : EngineEnv)
    (io : String → ReadScript) (l₁ l₂ : List AbstractFile)
    (hp : l₁.Perm l₂) (hn : (l₁.map AbstractFile.abstract_path).Nodup) :
    scan_abstract_fs o env io { res := 0, errno := 0, files := l₁ }
      = scan_abstract_fs o env io { res := 0, errno := 0, files := l₂ } := by
  have h := sortFiles_eq_of_perm hp hn
  cases o <;> simp [scan_abstract_fs, walk, do_walk, h]

/-- Witness for C1 at a concrete two-entry tree listed in both orders. -/
theorem scan_signature_listing_order_independent_witness :
    scan_abstract_fs HashOption.xxh128 env0 io0 { res := 0, errno := 0, files := [regFile, regFileB] }
      = scan_abstract_fs HashOption.xxh128 env0 io0 { res := 0, errno := 0, files := [regFileB, regFile] } :=
  scan_signature_listing_order_independent HashOption.xxh128 env0 io0 _ _
    (List.Perm.swap regFileB regFile []) (by decide)

/-- C2 counterexample: at a concrete failed walk (nftw returned -1 with
errno 13), scan_abstract_fs returns a negative status and nevertheless the
signature state HAS been populated with a finalized digest, contrary to
the claim that the state is not populated on failure. -/
theorem scan_populates_state_on_failed_walk :
    (scan_abstract_fs HashOption.md5 env0 io0 { res := -1, errno := 13, files := [] }).1 < 0
    ∧ ((scan_abstract_fs HashOption.md5 env0 io0 { res := -1, errno := 13, files := [] }).2).isSome
        = true := by
  decide

/-- C2 amended: when the walk fails, scan_abstract_fs propagates the
negative status, and although the state buffer is still overwritten with a
finalized digest, that digest is over the empty update stream — no entry
bytes were hashed — so callers must use the status, not the state, to tell
failure from success. -/
theorem scan_failed_walk_negative_status_empty_stream (o : HashOption) (env : EngineEnv)
    (io : String → ReadScript) (n : NftwOut) (hres : n.res < 0) (herr : 0 < n.errno) :
    (scan_abstract_fs o env io n).1 < 0 ∧ (scan_abstract_fs o env io n).2 = some [] := by
  have h1 : -((n.errno : Nat) : Int) < 0 := by omega
  cases o <;> simp [scan_abstract_fs, walk, do_walk, if_pos hres, h1]

/-- Witness for the amended C2 at a failed walk with collected entries. -/
theorem scan_failed_walk_negative_status_empty_stream_witness :
    (scan_abstract_fs HashOption.xxh128 env0 io0 { res := -1, errno := 5, files := [rootFile] }).1 < 0
    ∧ (scan_abstract_fs HashOption.xxh128 env0 io0 { res := -1, errno := 5, files := [rootFile] }).2
        = some [] :=
  scan_failed_walk_negative_status_empty_stream HashOption.xxh128 env0 io0
    { res := -1, errno := 5, files := [rootFile] } (by decide) (by decide)

/-- C3: a traversal in which the root directory is collected and then a
symlink entry hits a readlink error.  The handler answers FTW_STOP and
glibc nftw returns the positive FTW_STOP value, but do_walk only treats a
negative nftw result as an error, so walk returns status 0 and hashes the
partially collected entries, and scan_abstract_fs finalizes that partial
stream into the signature state — against the claim (and the spec), which
require a negative status and no signature. -/
theorem readlink_error_yields_success_and_partial_hash :
    runNftw 7 rl0
      [{ fpath := "/mnt/fs", finfo := dirStat, typeflag := Typeflag.D, level := 0 },
       { fpath := "/mnt/fs/l", finfo := slStat, typeflag := Typeflag.SL, level := 1 }] []
      = some { res := FTW_STOP, errno := 0, files := [rootFile] }
    ∧ (walk HashOption.md5 env0 io0 { res := FTW_STOP, errno := 0, files := [rootFile] }).1 = 0
    ∧ (scan_abstract_fs HashOption.md5 env0 io0 { res := FTW_STOP, errno := 0, files := [rootFile] })
        = (0, some [Chunk.str "/", Chunk.str "",
            Chunk.attrs { mode := 16877, size := 0, nlink := 3, uid := 0, gid := 0 }]) := by
  decide

/-- C4: a regular file on which the MD5 update call fails.
hash_file_content reports the failure with return value 1, but FeedHasher
discards that value and walk still returns status 0, and scan_abstract_fs
reports overall success — against the claim that such a walk must not
complete with a success status. -/
theorem hash_update_failure_walk_still_succeeds :
    (hash_file_content HashOption.md5 envU (ioC "/mnt/fs/a") 0).1 = 1
    ∧ walk HashOption.md5 envU ioC { res := 0, errno := 0, files := [regFile] }
        = (0, [Chunk.str "/a", Chunk.str "",
            Chunk.attrs { mode := 33188, size := 2, nlink := 1, uid := 0, gid := 0 }])
    ∧ (scan_abstract_fs HashOption.md5 envU ioC { res := 0, errno := 0, files := [regFile] }).1
        = 0 := by
  decide

/-- C5: the abstract path "/.nfs1234" matches the documented transient-NFS
naming pattern, yet is_excluded rejects it — the code tests for the prefix
"./nfs", not "/.nfs" — so the handler collects the entry and the walk
hashes its bytes into the signature, against the claim that such entries
are skipped and contribute nothing. -/
theorem nfs_prefix_file_not_excluded :
    is_excluded "/.nfs1234" = false
    ∧ nftw_handler 7 rl0
        { fpath := "/mnt/fs/.nfs1234", finfo := regStat, typeflag := Typeflag.F, level := 1 }
        = HandlerAction.continueWith nfsFile
    ∧ (walk HashOption.md5 env0 io0 { res := 0, errno := 0, files := [nfsFile] }).2 ≠ [] := by
  decide

/-- C7: the nlink adjustment is keyed on a substring search of the mount
path, not on the filesystem type.  The path "/mnt/context4" contains
"ext4" as a substring, so the root entry of any filesystem mounted there
gets its link count reduced by one, while the same filesystem mounted at
"/mnt/fsroot" keeps the raw count — against the claim that only the
ext2/ext4/jffs2 family is adjusted and all other filesystems pass the raw
count through. -/
theorem nlink_adjustment_depends_on_path_substring :
    fs_with_extra_nlink "/mnt/context4" = true
    ∧ nftw_handler 13 rl0
        { fpath := "/mnt/context4", finfo := dirStat, typeflag := Typeflag.D, level := 0 }
        = HandlerAction.continueWith
            { fullpath := "/mnt/context4", abstract_path := "/", target_relpath := "",
              attrs := { mode := 16877, size := 4096, nlink := 2, uid := 0, gid := 0 },
              extra_attrs := { blksize := 4096, blocks := 8 } }
    ∧ fs_with_extra_nlink "/mnt/fsroot" = false
    ∧ nftw_handler 11 rl0
        { fpath := "/mnt/fsroot", finfo := dirStat, typeflag := Typeflag.D, level := 0 }
        = HandlerAction.continueWith
            { fullpath := "/mnt/fsroot", abstract_path := "/", target_relpath := "",
              attrs := { mode := 16877, size := 4096, nlink := 3, uid := 0, gid := 0 },
              extra_attrs := { blksize := 4096, blocks := 8 } } := by
  decide

/-- C9 counterexample: the printed form of the state left by a crc32-mode
scan (four digest bytes, twelve zero bytes) is 32 hexadecimal characters —
the loop always prints all 16 state bytes — not the 8 characters the claim
assigns to the 32-bit checksum mode. -/
theorem print_width_32_for_crc32_mode :
    print_abstract_fs_state crcModeState = "deadbeef000000000000000000000000"
    ∧ (print_abstract_fs_state crcModeState).length = 32
    ∧ ¬ (print_abstract_fs_state crcModeState).length = 8 := by
  decide

/-- Every value below 16 is rendered by hexDigit as a lowercase
hexadecimal character. -/
theorem hexDigit_mem : ∀ n, n < 16 → "0123456789abcdef".toList.contains (hexDigit n) = true := by
  decide

theorem foldl_append_data : ∀ (l : List String) (s : String),
    (List.foldl (· ++ ·) s l).data = s.data ++ (l.map String.data).flatten
  | [], s => by simp
  | a :: t, s => by
    rw [List.foldl_cons, foldl_append_data t (s ++ a), String.data_append]
    simp

/-- The characters printed by print_abstract_fs_state are the
concatenation of the sixteen two-character byte renderings. -/
theorem print_data (hash : List Nat) :
    (print_abstract_fs_state hash).data
      = ((List.range 16).map (fun i => (hexByte ((hash.getD i 0) &&& 0xff)).data)).flatten := by
  show (List.foldl (· ++ ·) "" _).data = _
  rw [foldl_append_data]
  simp [List.map_map]
  rfl

/-- C9 amended: the printed representation renders each state byte as two
lowercase hexadecimal digits concatenated in array order, but its total
width is 32 hexadecimal characters for every algorithm — the loop always
prints all 16 bytes of the common zero-padded state buffer; the width is
not 16 for the 64-bit mode nor 8 for the 32-bit checksum mode. -/
theorem print_always_32_lowercase_hex_chars (hash : List Nat) :
    (print_abstract_fs_state hash).length = 32
    ∧ (print_abstract_fs_state hash).toList.all
        (fun c => "0123456789abcdef".toList.contains c) = true := by
  constructor
  · show (print_abstract_fs_state hash).data.length = 32
    rw [print_data, List.length_flatten, List.map_map]
    rw [List.map_congr_left
      (show ∀ i ∈ List.range 16,
          (List.length ∘ fun i => (hexByte ((hash.getD i 0) &&& 0xff)).data) i = (fun _ => 2) i
        from fun i _ => rfl)]
    decide
  · rw [show (print_abstract_fs_state hash).toList = (print_abstract_fs_state hash).data from rfl]
    rw [print_data, List.all_eq_true]
    intro c hc
    rw [List.mem_flatten] at hc
    obtain ⟨l2, hl2, hcl⟩ := hc
    rw [List.mem_map] at hl2
    obtain ⟨i, _, rfl⟩ := hl2
    have hb : (hexByte ((hash.getD i 0) &&& 0xff)).data
        = [hexDigit (((hash.getD i 0) &&& 0xff) / 16 % 16),
           hexDigit (((hash.getD i 0) &&& 0xff) % 16)] := rfl
    rw [hb] at hcl
    simp only [List.mem_cons, List.not_mem_nil, or_false] at hcl
    rcases hcl with rfl | rfl
    · exact hexDigit_mem _ (Nat.mod_lt _ (by omega))
    · exact hexDigit_mem _ (Nat.mod_lt _ (by omega))

theorem hashedAttrs_mode (a : Attrs) : (hashedAttrs a).mode = a.mode := by
  unfold hashedAttrs
  split <;> rfl

theorem feedMeta_fst (o : HashOption) (env : EngineEnv) (p t : String) (a : Attrs) (st : Nat) :
    (feedMeta o env p t a st).1 = [Chunk.str p, Chunk.str t, Chunk.attrs a] := by
  cases o <;> rfl

theorem FeedHasher_fst (o : HashOption) (env : EngineEnv) (f : AbstractFile)
    (rs : ReadScript) (st : Nat) :
    (AbstractFile.FeedHasher o env f rs st).1 = f := by
  unfold AbstractFile.FeedHasher hashedAttrs
  by_cases h : S_ISREG f.attrs.mode <;> simp [h]

theorem hashedAttrs_eq (a : Attrs) :
    hashedAttrs a = { a with size := if S_ISREG a.mode then a.size else 0 } := by
  unfold hashedAttrs
  by_cases h : S_ISREG a.mode <;> simp [h]

/-- The chunks FeedHasher feeds: the three metadata updates, then the
content chunks for a regular file. -/
theorem FeedHasher_fed (o : HashOption) (env : EngineEnv) (f : AbstractFile)
    (rs : ReadScript) (st : Nat) :
    (AbstractFile.FeedHasher o env f rs st).2.1
      = [Chunk.str f.abstract_path, Chunk.str f.target_relpath, Chunk.attrs (hashedAttrs f.attrs)]
        ++ (if S_ISREG f.attrs.mode then
              (hash_file_content o env rs
                (feedMeta o env f.abstract_path f.target_relpath (hashedAttrs f.attrs) st).2).2.1
            else []) := by
  simp only [AbstractFile.FeedHasher, hashedAttrs_mode]
  by_cases h : S_ISREG f.attrs.mode <;> simp [h, feedMeta_fst]

theorem Attrs.ext2 {a b : Attrs} (h1 : a.mode = b.mode) (h2 : a.size = b.size)
    (h3 : a.nlink = b.nlink) (h4 : a.uid = b.uid) (h5 : a.gid = b.gid) : a = b := by
  cases a
  cases b
  simp_all

theorem SameExceptDirSize.path_eq {f g : AbstractFile} (h : SameExceptDirSize f g) :
    f.abstract_path = g.abstract_path := h.2.1

theorem hashedAttrs_congr {f g : AbstractFile} (h : SameExceptDirSize f g) :
    hashedAttrs f.attrs = hashedAttrs g.attrs := by
  obtain ⟨_, _, _, hmode, hnlink, huid, hgid, _, hsize⟩ := h
  unfold hashedAttrs
  by_cases hr : S_ISREG f.attrs.mode
  · rw [if_pos hr, if_pos (hmode ▸ hr)]
    exact Attrs.ext2 hmode (hsize hr) hnlink huid hgid
  · rw [if_neg hr, if_neg (hmode ▸ hr)]
    exact Attrs.ext2 hmode rfl hnlink huid hgid

theorem FeedHasher_snd_congr (o : HashOption) (env : EngineEnv) (rs : ReadScript) (st : Nat)
    {f g : AbstractFile} (h : SameExceptDirSize f g) :
    (AbstractFile.FeedHasher o env f rs st).2 = (AbstractFile.FeedHasher o env g rs st).2 := by
  have ha1 := hashedAttrs_congr h
  unfold AbstractFile.FeedHasher
  rw [h.2.1, h.2.2.1, ha1]

theorem hashFiles_congr (o : HashOption) (env : EngineEnv) (io : String → ReadScript)
    {l1 l2 : List AbstractFile} (h : List.Forall₂ SameExceptDirSize l1 l2) :
    ∀ st, hashFiles o env io st l1 = hashFiles o env io st l2 := by
  induction h with
  | nil => intro st; rfl
  | @cons a b t u hab ht ih =>
    intro st
    simp only [hashFiles]
    rw [hab.1, FeedHasher_snd_congr o env (io b.fullpath) st hab, ih]

theorem orderedInsert_forall₂ {a b : AbstractFile} (hab : SameExceptDirSize a b) :
    ∀ {t1 t2 : List AbstractFile}, List.Forall₂ SameExceptDirSize t1 t2 →
      List.Forall₂ SameExceptDirSize (t1.orderedInsert absPathLe a) (t2.orderedInsert absPathLe b) := by
  intro t1 t2 h
  induction h with
  | nil => exact List.Forall₂.cons hab List.Forall₂.nil
  | @cons x y t u hxy ht ih =>
    simp only [List.orderedInsert]
    have hle : absPathLe a x ↔ absPathLe b y := by
      unfold absPathLe
      rw [hab.path_eq, hxy.path_eq]
    by_cases hc : absPathLe a x
    · rw [if_pos hc, if_pos (hle.mp hc)]
      exact List.Forall₂.cons hab (List.Forall₂.cons hxy ht)
    · rw [if_neg hc, if_neg (fun hc2 => hc (hle.mpr hc2))]
      exact List.Forall₂.cons hxy ih

theorem sortFiles_forall₂ :
    ∀ {l1 l2 : List AbstractFile}, List.Forall₂ SameExceptDirSize l1 l2 →
      List.Forall₂ SameExceptDirSize (sortFiles l1) (sortFiles l2) := by
  intro l1 l2 h
  induction h with
  | nil => exact List.Forall₂.nil
  | @cons a b t u hab ht ih =>
    simp only [sortFiles, List.insertionSort] at ih ⊢
    exact orderedInsert_forall₂ hab ih

/-- C6: FeedHasher zeroes the size entering the hash for every non-regular
entry and hashes the true size for regular files (the attribute chunk fed
is the attrs with size replaced accordingly); afterward the stored record
is exactly the original — every field, the transiently zeroed size
included, is restored — and consequently two trees identical except for
the OS-reported sizes of non-regular entries produce the same scan result
(status and signature). -/
theorem feedhasher_size_zeroing_frame_and_insensitivity (o : HashOption) (env : EngineEnv)
    (f : AbstractFile) (rs : ReadScript) (st : Nat) :
    (AbstractFile.FeedHasher o env f rs st).1 = f
    ∧ (AbstractFile.FeedHasher o env f rs st).2.1.take 3
        = [Chunk.str f.abstract_path, Chunk.str f.target_relpath,
           Chunk.attrs { f.attrs with size := if S_ISREG f.attrs.mode then f.attrs.size else 0 }]
    ∧ (∀ (io : String → ReadScript) (l1 l2 : List AbstractFile),
        List.Forall₂ SameExceptDirSize l1 l2 →
        scan_abstract_fs o env io { res := 0, errno := 0, files := l1 }
          = scan_abstract_fs o env io { res := 0, errno := 0, files := l2 }) := by
  refine ⟨FeedHasher_fst o env f rs st, ?_, ?_⟩
  · rw [FeedHasher_fed, hashedAttrs_eq]
    by_cases h : S_ISREG f.attrs.mode <;> simp [h]
  · intro io l1 l2 h
    have hs := sortFiles_forall₂ h
    have hh := hashFiles_congr o env io hs 0
    cases o <;> simp [scan_abstract_fs, walk, do_walk, hh]

/-- C8: for every entry, FeedHasher updates the engine with the
abstract_path bytes first, then the symlink_target bytes (the empty string
for non-symlinks, contributing zero bytes), then the fixed-layout
attribute block, and then — for regular files only — the content chunks of
the Content Hasher starting from the register state the metadata updates
left; non-regular entries feed no content.  The first three updates, and
the whole order, are the same for all four hash algorithms. -/
theorem feedhasher_update_order_uniform (env : EngineEnv) (f : AbstractFile)
    (rs : ReadScript) (st : Nat) (o : HashOption) :
    (AbstractFile.FeedHasher o env f rs st).2.1.take 3
        = [Chunk.str f.abstract_path, Chunk.str f.target_relpath, Chunk.attrs (hashedAttrs f.attrs)]
    ∧ (S_ISREG f.attrs.mode = false →
        (AbstractFile.FeedHasher o env f rs st).2.1
          = [Chunk.str f.abstract_path, Chunk.str f.target_relpath, Chunk.attrs (hashedAttrs f.attrs)])
    ∧ (S_ISREG f.attrs.mode = true →
        (AbstractFile.FeedHasher o env f rs st).2.1
          = [Chunk.str f.abstract_path, Chunk.str f.target_relpath, Chunk.attrs (hashedAttrs f.attrs)]
            ++ (hash_file_content o env rs
                 (feedMeta o env f.abstract_path f.target_relpath (hashedAttrs f.attrs) st).2).2.1)
    ∧ (∀ o2 : HashOption,
        (AbstractFile.FeedHasher o env f rs st).2.1.take 3
          = (AbstractFile.FeedHasher o2 env f rs st).2.1.take 3) := by
  have htake : ∀ o2 : HashOption, (AbstractFile.FeedHasher o2 env f rs st).2.1.take 3
      = [Chunk.str f.abstract_path, Chunk.str f.target_relpath, Chunk.attrs (hashedAttrs f.attrs)] := by
    intro o2
    rw [FeedHasher_fed]
    by_cases h : S_ISREG f.attrs.mode <;> simp [h]
  refine ⟨htake o, ?_, ?_, fun o2 => (htake o).trans (htake o2).symm⟩
  · intro h
    rw [FeedHasher_fed, if_neg (by simp [h]), List.append_nil]
  · intro h
    rw [FeedHasher_fed, if_pos h]

/-- Witness for C6 at the concrete root directory with two different
OS-reported sizes. -/
theorem feedhasher_size_zeroing_frame_and_insensitivity_witness :
    (AbstractFile.FeedHasher HashOption.md5 env0 rootFile (io0 "/mnt/fs") 0).1 = rootFile
    ∧ scan_abstract_fs HashOption.md5 env0 io0 { res := 0, errno := 0, files := [rootFile] }
        = scan_abstract_fs HashOption.md5 env0 io0 { res := 0, errno := 0, files := [rootFileSz] } :=
  ⟨(feedhasher_size_zeroing_frame_and_insensitivity HashOption.md5 env0 rootFile (io0 "/mnt/fs") 0).1,
   (feedhasher_size_zeroing_frame_and_insensitivity HashOption.md5 env0 rootFile (io0 "/mnt/fs") 0).2.2
     io0 [rootFile] [rootFileSz] (List.Forall₂.cons ⟨rfl, rfl, rfl, rfl, rfl, rfl, rfl, rfl, fun h => absurd h (by decide)⟩ List.Forall₂.nil)⟩

/-- Witness for C8 at a concrete regular file in MD5 mode. -/
theorem feedhasher_update_order_uniform_witness :
    (AbstractFile.FeedHasher HashOption.md5 env0 regFile (ioC "/mnt/fs/a") 0).2.1
      = [Chunk.str "/a", Chunk.str "", Chunk.attrs (hashedAttrs regFile.attrs)]
        ++ (hash_file_content HashOption.md5 env0 (ioC "/mnt/fs/a") 0).2.1 :=
  (feedhasher_update_order_uniform env0 regFile (ioC "/mnt/fs/a") 0 HashOption.md5).2.2.1 (by decide)

theorem int_of_uint32_eq_zero {s : Nat} (h : s < 2 ^ 32) : int_of_uint32 s = 0 ↔ s = 0 := by
  unfold int_of_uint32
  split <;> omega

theorem hfcLoop_crc_zero_stop (env : EngineEnv) :
    ∀ (pre : List (List Nat)) (st : Nat) (b : List Nat) (rest : List (List Nat)) (fin : Option Nat),
      noZeroRun env st pre = true →
      crcAfter env st (pre ++ [b]) = 0 →
      hfcLoop HashOption.crc32 env st (pre ++ b :: rest) fin
        = (1, (pre ++ [b]).map Chunk.bytes, 0)
  | [], st, b, rest, fin, _, hz => by
    have hz2 : env.crc st (Chunk.bytes b) % 2 ^ 32 = 0 := by
      simpa [crcAfter] using hz
    simp only [List.nil_append, hfcLoop, hz2]
    rw [if_pos (by rfl : int_of_uint32 0 = 0)]
    simp
  | p :: pre, st, b, rest, fin, hnz, hz => by
    rw [noZeroRun, Bool.and_eq_true, bne_iff_ne] at hnz
    have hlt : env.crc st (Chunk.bytes p) % 2 ^ 32 < 2 ^ 32 := Nat.mod_lt _ (by omega)
    have hz2 : crcAfter env (env.crc st (Chunk.bytes p) % 2 ^ 32) (pre ++ [b]) = 0 := by
      simpa [crcAfter] using hz
    have ih := hfcLoop_crc_zero_stop env pre (env.crc st (Chunk.bytes p) % 2 ^ 32) b rest fin
      hnz.2 hz2
    simp only [List.cons_append, hfcLoop, List.append_eq]
    rw [if_neg (fun hcon => hnz.1 ((int_of_uint32_eq_zero hlt).mp hcon)), ih]
    rfl

theorem hfcLoop_crc_run (env : EngineEnv) :
    ∀ (bufs : List (List Nat)) (st : Nat) (fin : Option Nat),
      noZeroRun env st bufs = true →
      hfcLoop HashOption.crc32 env st bufs fin
        = ((match fin with | none => (0 : Int) | some e => -(e : Int)),
           bufs.map Chunk.bytes, crcAfter env st bufs)
  | [], st, none, _ => by simp [hfcLoop, crcAfter]
  | [], st, some e, _ => by simp [hfcLoop, crcAfter]
  | b :: bufs, st, fin, h => by
    rw [noZeroRun, Bool.and_eq_true, bne_iff_ne] at h
    have hlt : env.crc st (Chunk.bytes b) % 2 ^ 32 < 2 ^ 32 := Nat.mod_lt _ (by omega)
    have ih := hfcLoop_crc_run env bufs (env.crc st (Chunk.bytes b) % 2 ^ 32) fin h.2
    simp only [hfcLoop]
    rw [if_neg (fun hcon => h.1 ((int_of_uint32_eq_zero hlt).mp hcon)), ih]
    simp [crcAfter]

theorem hfcLoop_noncrc_ok (env : EngineEnv) (o : HashOption) (ho : o ≠ HashOption.crc32) :
    ∀ (bufs : List (List Nat)) (st : Nat) (fin : Option Nat),
      (∀ b ∈ bufs, env.updOk (Chunk.bytes b) = true) →
      hfcLoop o env st bufs fin
        = ((match fin with | none => (0 : Int) | some e => -(e : Int)),
           bufs.map Chunk.bytes, st)
  | [], st, fin, _ => by cases fin <;> rfl
  | b :: bufs, st, fin, h => by
    have hb := h b (List.mem_cons_self b bufs)
    have ih := hfcLoop_noncrc_ok env o ho bufs st fin (fun x hx => h x (List.mem_cons_of_mem b hx))
    cases o with
    | crc32 => exact absurd rfl ho
    | xxh128 =>
      simp only [hfcLoop]
      rw [if_pos hb, ih]
      cases fin <;> rfl
    | xxh3 =>
      simp only [hfcLoop]
      rw [if_pos hb, ih]
      cases fin <;> rfl
    | md5 =>
      simp only [hfcLoop]
      rw [if_pos hb, ih]
      cases fin <;> rfl

theorem hfcLoop_noncrc_updfail (env : EngineEnv) (o : HashOption) (ho : o ≠ HashOption.crc32) :
    ∀ (pre : List (List Nat)) (st : Nat) (b : List Nat) (rest : List (List Nat)) (fin : Option Nat),
      (∀ x ∈ pre, env.updOk (Chunk.bytes x) = true) →
      env.updOk (Chunk.bytes b) = false →
      hfcLoop o env st (pre ++ b :: rest) fin = (1, pre.map Chunk.bytes, st)
  | [], st, b, rest, fin, _, hb => by
    cases o with
    | crc32 => exact absurd rfl ho
    | xxh128 =>
      simp only [List.nil_append, hfcLoop]
      rw [if_neg (by simp [hb])]
      rfl
    | xxh3 =>
      simp only [List.nil_append, hfcLoop]
      rw [if_neg (by simp [hb])]
      rfl
    | md5 =>
      simp only [List.nil_append, hfcLoop]
      rw [if_neg (by simp [hb])]
      rfl
  | p :: pre, st, b, rest, fin, h, hb => by
    have hp := h p (List.mem_cons_self p pre)
    have ih := hfcLoop_noncrc_updfail env o ho pre st b rest fin
      (fun x hx => h x (List.mem_cons_of_mem p hx)) hb
    cases o with
    | crc32 => exact absurd rfl ho
    | xxh128 =>
      simp only [List.cons_append, hfcLoop, List.append_eq]
      rw [if_pos hp, ih]
      rfl
    | xxh3 =>
      simp only [List.cons_append, hfcLoop, List.append_eq]
      rw [if_pos hp, ih]
      rfl
    | md5 =>
      simp only [List.cons_append, hfcLoop, List.append_eq]
      rw [if_pos hp, ih]
      rfl

/-- C10: in crc32 mode hash_file_content returns the update-failure code 1
and stops reading as soon as the running CRC register is zero after a
chunk, whatever the rest of the read script holds and with no engine or
I/O error involved, and the remaining chunks never enter the signature;
when no zero register occurs, crc32 mode returns 0 at end of file and the
negated errno on a read failure; every mode returns the negated errno on
an open failure; the xxHash/MD5 modes return 0 at end of file when all
updates succeed, the negated errno on a read failure, and 1 at the first
genuine update failure. -/
theorem hash_file_content_crc_zero_and_error_contract (env : EngineEnv) (st : Nat) :
    (∀ (pre : List (List Nat)) (b : List Nat) (rest : List (List Nat)) (fin : Option Nat),
      noZeroRun env st pre = true →
      crcAfter env st (pre ++ [b]) = 0 →
      hash_file_content HashOption.crc32 env ⟨none, pre ++ b :: rest, fin⟩ st
        = (1, (pre ++ [b]).map Chunk.bytes, 0))
    ∧ (∀ bufs, noZeroRun env st bufs = true →
        hash_file_content HashOption.crc32 env ⟨none, bufs, none⟩ st
          = (0, bufs.map Chunk.bytes, crcAfter env st bufs))
    ∧ (∀ bufs e, noZeroRun env st bufs = true →
        hash_file_content HashOption.crc32 env ⟨none, bufs, some e⟩ st
          = (-(e : Int), bufs.map Chunk.bytes, crcAfter env st bufs))
    ∧ (∀ (o : HashOption) (bufs : List (List Nat)) (fin : Option Nat) (e : Nat),
        hash_file_content o env ⟨some e, bufs, fin⟩ st = (-(e : Int), [], st))
    ∧ (∀ (o : HashOption) bufs, o ≠ HashOption.crc32 →
        (∀ b ∈ bufs, env.updOk (Chunk.bytes b) = true) →
        hash_file_content o env ⟨none, bufs, none⟩ st = (0, bufs.map Chunk.bytes, st))
    ∧ (∀ (o : HashOption) bufs e, o ≠ HashOption.crc32 →
        (∀ b ∈ bufs, env.updOk (Chunk.bytes b) = true) →
        hash_file_content o env ⟨none, bufs, some e⟩ st = (-(e : Int), bufs.map Chunk.bytes, st))
    ∧ (∀ (o : HashOption) pre b rest fin, o ≠ HashOption.crc32 →
        (∀ x ∈ pre, env.updOk (Chunk.bytes x) = true) →
        env.updOk (Chunk.bytes b) = false →
        hash_file_content o env ⟨none, pre ++ b :: rest, fin⟩ st = (1, pre.map Chunk.bytes, st)) := by
  refine ⟨?_, ?_, ?_, ?_, ?_, ?_, ?_⟩
  · intro pre b rest fin h1 h2
    exact hfcLoop_crc_zero_stop env pre st b rest fin h1 h2
  · intro bufs h1
    exact hfcLoop_crc_run env bufs st none h1
  · intro bufs e h1
    exact hfcLoop_crc_run env bufs st (some e) h1
  · intro o bufs fin e
    rfl
  · intro o bufs ho h1
    exact hfcLoop_noncrc_ok env o ho bufs st none h1
  · intro o bufs e ho h1
    exact hfcLoop_noncrc_ok env o ho bufs st (some e) h1
  · intro o pre b rest fin ho h1 hb
    exact hfcLoop_noncrc_updfail env o ho pre st b rest fin h1 hb

/-- Witness for C10: a crc environment that zeroes the register on the
first chunk (return 1, second chunk never read), an open failure, and a
successful MD5 run. -/
theorem hash_file_content_crc_zero_and_error_contract_witness :
    hash_file_content HashOption.crc32 envC { openErr := none, chunks := [[1], [2]], readErr := none } 7
      = (1, [Chunk.bytes [1]], 0)
    ∧ hash_file_content HashOption.md5 envC { openErr := some 5, chunks := [], readErr := none } 7
      = (-5, [], 7)
    ∧ hash_file_content HashOption.md5 envC { openErr := none, chunks := [[3]], readErr := none } 7
      = (0, [Chunk.bytes [3]], 7) := by
  refine ⟨?_, ?_, ?_⟩
  · exact (hash_file_content_crc_zero_and_error_contract envC 7).1 [] [1] [[2]] none rfl (by decide)
  · exact (hash_file_content_crc_zero_and_error_contract envC 7).2.2.2.1 HashOption.md5 [] none 5
  · exact (hash_file_content_crc_zero_and_error_contract envC 7).2.2.2.2.1 HashOption.md5 [[3]]
      (by decide) (fun b _ => rfl)
